import Mathlib

/-
Verification of the chatmate repository's streaming tool-call orchestration
engine, as implemented in `src/mcp-client/src/mcp.ts` (class `MCPClient`) and
the legacy client in `src/lib/util.ts` (`DataTransform`, `LimitQueue`,
`ChatGptClient`).

Modelling conventions:
- JavaScript strings are `List Char` (abbreviated `Str`); string concatenation
  is list append; `String.prototype.trimStart` is `List.dropWhile` over a
  whitespace predicate.
- JavaScript arrays with holes (`pendingToolCalls[index] = …` on a sparse
  array followed by `.filter(Boolean)`) are `List (Option α)` with explicit
  padding, compacted by `List.filterMap id`.
- External collaborators (the LLM endpoint, the tool servers' `callTool`, the
  JSON library) are oracles passed in as parameters; the code under proof is
  the bookkeeping the repository itself performs around them.
- Thrown exceptions are `Except`; a `try`/`catch` that swallows the error is
  modelled by the corresponding non-propagating case split.
-/

namespace Chatmate

/-- JavaScript strings, modelled as lists of characters. -/
abbrev Str := List Char

/-- Whitespace predicate used by `String.prototype.trimStart` / `trim`
(the characters relevant to this code base). -/
def isWS (c : Char) : Bool :=
  c = ' ' || c = '\t' || c = '\n' || c = '\r'

/-- JavaScript `s.trimStart()`. -/
def trimStart (s : Str) : Str := s.dropWhile isWS

/-- JavaScript `s || dflt` on strings: the empty string is falsy. -/
def orDefault (s dflt : Str) : Str := if s.isEmpty then dflt else s

/-- Message roles of the chat API. -/
inductive Role where
  | user
  | assistant
  | system
  | tool
deriving DecidableEq, Repr

/-- One entry of a message list (`ChatCompletionMessageParam`, restricted to
the role/content fields this code reads and writes). -/
structure Message where
  role : Role
  content : Str
deriving DecidableEq, Repr

/- ## Stream accumulation (`MCPClient.handleStreamResponse`, mcp.ts 143-195) -/

/-- The tool-call part of one stream delta
(`ChatCompletionChunk.Choice.Delta.ToolCall`): a slot index plus optional
partial `type`, `function.name` and `function.arguments` strings. -/
structure ToolCallDelta where
  index : Nat
  type : Option Str
  name : Option Str
  args : Option Str
deriving DecidableEq, Repr

/-- One stream delta (`chunk.choices[0].delta`): optional text content plus a
(possibly empty) list of tool-call deltas. -/
structure StreamDelta where
  content : Option Str
  tool_calls : List ToolCallDelta
deriving DecidableEq, Repr

/-- A reconstructed tool call (`BasicToolCall` in mcp.ts): accumulated call
kind, tool name and argument text. -/
structure BasicToolCall where
  type : Str
  name : Str
  args : Str
deriving DecidableEq, Repr

/-- The literal string `"function"`, the default call kind. -/
def functionKind : Str := ("function").data

/-- JavaScript truthiness-guarded append: `if (x) target += x`, where `x` is
an optional string (absent or empty strings contribute nothing). -/
def appendOpt (base : Str) (x : Option Str) : Str :=
  match x with
  | some s => if s.isEmpty then base else base ++ s
  | none => base

/-- JavaScript `x || dflt` on an optional string (absent and empty are both
falsy). Used for `toolCall.type || "function"`. -/
def jsOrElse (x : Option Str) (dflt : Str) : Str :=
  match x with
  | some s => if s.isEmpty then dflt else s
  | none => dflt

/-- Read `arr[i]` from a possibly sparse JavaScript array: out-of-range
indices and holes both read as absent. -/
def getSlot (arr : List (Option BasicToolCall)) (i : Nat) : Option BasicToolCall :=
  (arr[i]?).join

/-- JavaScript sparse-array assignment `arr[i] = v`: in-range indices are
overwritten; past-the-end assignment pads the gap with holes. -/
def setSlot (arr : List (Option BasicToolCall)) (i : Nat) (v : BasicToolCall) :
    List (Option BasicToolCall) :=
  if i < arr.length then arr.set i (some v)
  else arr ++ List.replicate (i - arr.length) none ++ [some v]

/-- Processing of one tool-call delta against the pending sparse array
(mcp.ts 163-186): initialise the slot on first sight (call kind from this
fragment, defaulting to `"function"`), then append the fragment's name and
arguments pieces. -/
def applyToolCallDelta (arr : List (Option BasicToolCall)) (d : ToolCallDelta) :
    List (Option BasicToolCall) :=
  let cur :=
    match getSlot arr d.index with
    | some tc => tc
    | none => { type := jsOrElse d.type functionKind, name := [], args := [] }
  let cur2 : BasicToolCall :=
    { cur with
      name := appendOpt cur.name d.name
      args := appendOpt cur.args d.args }
  setSlot arr d.index cur2

/-- Accumulator state while consuming the stream: the content string and the
(possibly sparse) array of pending tool calls. -/
structure StreamAcc where
  content : Str
  pending : List (Option BasicToolCall)
deriving DecidableEq, Repr

/-- Processing of one stream delta (mcp.ts 153-188). -/
def applyDelta (acc : StreamAcc) (d : StreamDelta) : StreamAcc :=
  { content := appendOpt acc.content d.content
    pending := d.tool_calls.foldl applyToolCallDelta acc.pending }

/-- The pending sparse array after the whole stream is consumed. -/
def streamPending (ds : List StreamDelta) : List (Option BasicToolCall) :=
  (ds.foldl applyDelta { content := [], pending := [] }).pending

/-- Final result of `handleStreamResponse`: accumulated content and the dense
tool-call list (`pendingToolCalls.filter(Boolean)`). -/
structure StreamResult where
  content : Str
  toolCalls : List BasicToolCall
deriving DecidableEq, Repr

/-- Result of `MCPClient.handleStreamResponse` over a finite delta sequence. -/
def handleStreamResponse (ds : List StreamDelta) : StreamResult :=
  let acc := ds.foldl applyDelta { content := [], pending := [] }
  { content := acc.content, toolCalls := acc.pending.filterMap id }

/-- A text-only fragment, as a stream delta. -/
def textDelta (s : Str) : StreamDelta := { content := some s, tool_calls := [] }

/-- Content accumulated by `handleStreamResponse` on a text-only stream. -/
def mcpAccumulate (frags : List Str) : Str :=
  (handleStreamResponse (frags.map textDelta)).content

/- ## Legacy stream accumulation (`DataTransform._transform`, util.ts 33-58) -/

/-- One step of `DataTransform`: a non-empty delta message is appended, with
`trimStart` applied while the accumulated content is still empty
(util.ts 50-54). -/
def dtStep (content : Str) (msg : Str) : Str :=
  if msg.isEmpty then content
  else if content.isEmpty then content ++ trimStart msg
  else content ++ msg

/-- Final `content` of a `DataTransform` fed the given delta messages. -/
def dataTransformContent (msgs : List Str) : Str := msgs.foldl dtStep []

/-- What the specification claims for the accumulator: the concatenation of
the fragments with only the very first non-empty fragment's leading
whitespace stripped. (Stated from the spec's words, for comparison with the
code's behaviour.) -/
def specClaimedContent : List Str → Str
  | [] => []
  | f :: rest => if f.isEmpty then specClaimedContent rest
                 else trimStart f ++ rest.flatten

/- ## Server registry (`MCPClient.connectToServers` / `connectToSingleServer`,
mcp.ts 52-113) -/

/-- A live server connection as the registry stores it: the logical server
name and the namespaced tool names it advertises. The opaque protocol handle
is external and not modelled. -/
structure ServerConnection where
  name : Str
  tools : List Str
deriving DecidableEq, Repr

/-- Registry/client state touched by connection management: the insertion
ordered map of connections and the flattened tool catalog. -/
structure ClientState where
  serverConnections : List (Str × ServerConnection)
  allTools : List Str
deriving DecidableEq, Repr

/-- The empty state of a freshly constructed client. -/
def emptyClientState : ClientState := { serverConnections := [], allTools := [] }

/-- JavaScript `Map.prototype.set`: an existing key is updated in place
(keeping its position), a new key is appended. -/
def mapSet (m : List (Str × ServerConnection)) (k : Str) (v : ServerConnection) :
    List (Str × ServerConnection) :=
  if m.any (fun p => p.1 = k) then
    m.map (fun p => if p.1 = k then (k, v) else p)
  else m ++ [(k, v)]

/-- JavaScript `Map.prototype.get` via the assoc list (first match wins, as
keys are unique in a `Map`). -/
def mapGet (m : List (Str × ServerConnection)) (k : Str) : Option ServerConnection :=
  (m.find? (fun p => p.1 = k)).map Prod.snd

/-- Namespacing of an advertised tool name: `` `${serverName}_${tool.name}` ``
(mcp.ts 93). -/
def namespacedTool (serverName toolName : Str) : Str :=
  serverName ++ '_' :: toolName

/-- Effect of `MCPClient.connectToSingleServer` after a successful handshake: register
the connection under its name and extend the flattened catalog
(mcp.ts 89-107). -/
def connectToSingleServer (st : ClientState) (serverName : Str)
    (advertised : List Str) : ClientState :=
  let tools := advertised.map (namespacedTool serverName)
  { serverConnections := mapSet st.serverConnections serverName ⟨serverName, tools⟩
    allTools := st.allTools ++ tools }

/-- The outcome of one configured server's handshake, as an oracle: either the
advertised tool names, or a connection error. -/
abbrev HandshakeResult := Except Unit (List Str)

/-- Whether a handshake outcome is a success. -/
def handshakeOk (r : HandshakeResult) : Bool :=
  match r with
  | .ok _ => true
  | .error _ => false

/-- One iteration of the `connectToServers` loop (mcp.ts 55-63): a successful
handshake registers the server, a failure is caught, logged and skipped. -/
def connectStep (s : ClientState) (p : Str × HandshakeResult) : ClientState :=
  match p.2 with
  | .ok advertised => connectToSingleServer s p.1 advertised
  | .error _ => s

/-- Startup loop `MCPClient.connectToServers` (mcp.ts 52-72): each configured server is
tried in order; a failure is logged and skipped; afterwards the call throws
exactly when zero servers are registered. -/
def connectToServers (st : ClientState) (cfg : List (Str × HandshakeResult)) :
    Except Unit ClientState :=
  if (cfg.foldl connectStep st).serverConnections.isEmpty then .error ()
  else .ok (cfg.foldl connectStep st)

/- ## Tool-call routing (`MCPClient.callTool`, mcp.ts 115-141) -/

/-- Splitting a string at the first occurrence of the underscore separator
(`toolName.indexOf("_")` plus the two `substring` calls, mcp.ts 117-123):
`none` when no separator is present. -/
def splitFirstUnderscore : Str → Option (Str × Str)
  | [] => none
  | c :: rest =>
    if c = '_' then some ([], rest)
    else
      match splitFirstUnderscore rest with
      | some (p, t) => some (c :: p, t)
      | none => none

/-- Name resolution in `callTool`: split at the first separator, or fall back
to the first connected server's name (`Array.from(keys())[0]`, which is
absent when the registry is empty). -/
def resolveRoute (st : ClientState) (toolName : Str) : Option Str × Str :=
  match splitFirstUnderscore toolName with
  | some (srv, bare) => (some srv, bare)
  | none => ((st.serverConnections.map Prod.fst).head?, toolName)

/-- Routing part of `MCPClient.callTool`: resolve the server name, look up the
connection, and fail with the server-not-found error when the lookup misses
(mcp.ts 130-133); on success return the connection and the bare tool name
that would be forwarded to it. -/
def callToolRoute (st : ClientState) (toolName : Str) :
    Except Unit (ServerConnection × Str) :=
  match resolveRoute st toolName with
  | (none, _) => .error ()
  | (some srv, bare) =>
    match mapGet st.serverConnections srv with
    | none => .error ()
    | some conn => .ok (conn, bare)

/- ## Registry teardown (`MCPClient.cleanup`, mcp.ts 340-356) -/

/-- Full mutable state of the `MCPClient` instance. -/
structure MCPClientState where
  serverConnections : List (Str × ServerConnection)
  allTools : List Str
  conversationHistory : List Message
deriving DecidableEq, Repr

/-- The teardown loop (mcp.ts 342-352): every connection's `close()` is
attempted in order; the oracle `closeOk` tells whether a given server's close
succeeds; a failure is caught and logged, never propagated. Returns the list
of servers whose close was attempted and the list of logged failures. -/
def cleanupLoop (closeOk : Str → Bool) :
    List (Str × ServerConnection) → List Str × List Str
  | [] => ([], [])
  | (n, _) :: rest =>
    let r := cleanupLoop closeOk rest
    (n :: r.1, if closeOk n then r.2 else n :: r.2)

/-- Teardown `MCPClient.cleanup`: run the close loop over all connections, then clear
the connection map, the tool catalog and the conversation history
(mcp.ts 353-355). -/
def cleanup (closeOk : Str → Bool) (st : MCPClientState) :
    (List Str × List Str) × MCPClientState :=
  (cleanupLoop closeOk st.serverConnections,
   { serverConnections := [], allTools := [], conversationHistory := [] })

/- ## Turn orchestration (`MCPClient.processQuery`, mcp.ts 243-300, and
`generateFollowUpResponse`, mcp.ts 211-241) -/

/-- A chat-completion request as this client builds it: model name, message
list, optional tool catalog, optional tool-choice mode, streaming flag. -/
structure ChatRequest where
  model : Str
  messages : List Message
  tools : Option (List Str)
  tool_choice : Option Str
  stream : Bool
deriving DecidableEq, Repr

/-- The model name `"deepseek-chat"` used by every request. -/
def modelName : Str := ("deepseek-chat").data

/-- The initial generation request of a turn (mcp.ts 251-257): full history,
full tool catalog, `tool_choice: "auto"`, streaming. -/
def initialRequest (hist : List Message) (allTools : List Str) : ChatRequest :=
  { model := modelName
    messages := hist
    tools := some allTools
    tool_choice := some (("auto").data)
    stream := true }

/-- The follow-up request built by `generateFollowUpResponse`
(mcp.ts 213-228): the current history plus the tool result as a `user`
message; no `tools` field, no `tool_choice`, streaming. -/
def followUpRequest (hist : List Message) (toolResult : Str) : ChatRequest :=
  { model := modelName
    messages := hist ++ [{ role := Role.user, content := toolResult }]
    tools := none
    tool_choice := none
    stream := true }

/-- JavaScript `Array.prototype.join("\n")` on a list of strings. -/
def joinNL : List Str → Str
  | [] => []
  | [s] => s
  | s :: t :: rest => s ++ '\n' :: joinNL (t :: rest)

/-- The literal default argument text `"{}"` of
`JSON.parse(toolCall.function.arguments || "{}")`. -/
def emptyJsonObject : Str := ("\x7b\x7d").data

/-- The bracketed tool-call announcement pushed onto `finalText`
(mcp.ts 281-283): `[Calling tool NAME with args ARGS]`, where ARGS is the
re-serialised parsed argument object. -/
def toolAnnouncement (toolName argsStr : Str) : Str :=
  ("[Calling tool ").data ++ toolName ++ (" with args ").data ++ argsStr ++ ("]").data

/-- Everything observable about one completed turn: the conversation history
afterwards, the returned text, which reconstructed tool call was dispatched
(if any), and the follow-up request that was issued (if any). -/
structure TurnOutcome where
  history : List Message
  result : Str
  dispatched : Option BasicToolCall
  followUpReq : Option ChatRequest
deriving DecidableEq, Repr

/-- Turn function `MCPClient.processQuery` (mcp.ts 243-300) on an already accumulated
stream result. External collaborators are oracles: `reparse` is the JSON
library round trip `x ↦ JSON.stringify(JSON.parse(x))` (`none` = parse
throws); `toolResult` is the textual result of the external tool invocation;
`followUpContent` is the content of the follow-up generation. Steps, in
source order: append the user query; if the streamed content is non-empty,
record it in `finalText` and append it as an assistant message; if tool calls
were reconstructed, take the first one, parse its arguments (line 277, may
throw), run `handleToolCall` (empty-name check, argument parse, routing via
`callTool`, external invocation), push the bracketed announcement and the
follow-up content onto `finalText`, and append one assistant message whose
content is `finalText.join("\n")`; return `finalText.join("\n")`. -/
def processQuery (st : ClientState) (reparse : Str → Option Str)
    (toolResult followUpContent : Str) (hist : List Message) (query : Str)
    (sr : StreamResult) : Except Unit TurnOutcome :=
  let hist1 := hist ++ [{ role := Role.user, content := query }]
  let finalText0 : List Str := if sr.content.isEmpty then [] else [sr.content]
  let hist2 :=
    if sr.content.isEmpty then hist1
    else hist1 ++ [{ role := Role.assistant, content := sr.content }]
  match sr.toolCalls.head? with
  | none => .ok { history := hist2, result := joinNL finalText0
                  dispatched := none, followUpReq := none }
  | some tc =>
    match reparse (orDefault tc.args emptyJsonObject) with
    | none => .error ()
    | some argsStr =>
      if tc.name.isEmpty then .error ()
      else
        match callToolRoute st tc.name with
        | .error _ => .error ()
        | .ok _ =>
          let req := followUpRequest hist2 toolResult
          let finalText := finalText0 ++ [toolAnnouncement tc.name argsStr, followUpContent]
          .ok { history := hist2 ++ [{ role := Role.assistant, content := joinNL finalText }]
                result := joinNL finalText
                dispatched := some tc
                followUpReq := some req }

/- ## Conversation history snapshot (`getConversationHistory`, mcp.ts
307-309), with array copying made explicit -/

/-- A heap of JavaScript arrays of messages; array references are indices. -/
structure ArrayStore where
  arrays : List (List Message)
deriving DecidableEq, Repr

/-- Dereference an array reference. -/
def readArr (st : ArrayStore) (r : Nat) : List Message := (st.arrays[r]?).getD []

/-- Overwrite the array behind a reference. -/
def writeArr (st : ArrayStore) (r : Nat) (v : List Message) : ArrayStore :=
  ⟨st.arrays.set r v⟩

/-- Allocate a fresh array holding `v`; returns the new store and the fresh
reference. -/
def allocArr (st : ArrayStore) (v : List Message) : ArrayStore × Nat :=
  (⟨st.arrays ++ [v]⟩, st.arrays.length)

/-- Client state for the snapshot model: the store and the reference held in
the private `conversationHistory` field. -/
structure HistoryState where
  store : ArrayStore
  histRef : Nat
deriving DecidableEq, Repr

/-- Snapshot method `getConversationHistory` (mcp.ts 307-309): `return
[...this.conversationHistory]` allocates a fresh copy of the current history
array and hands out a reference to the copy. -/
def getConversationHistory (c : HistoryState) : HistoryState × Nat :=
  let a := allocArr c.store (readArr c.store c.histRef)
  ({ c with store := a.1 }, a.2)

/-- In-place append `this.conversationHistory.push(m)` through the internal
reference. -/
def pushHistory (c : HistoryState) (m : Message) : HistoryState :=
  { c with store := writeArr c.store c.histRef (readArr c.store c.histRef ++ [m]) }

/-- In-place append through an arbitrary reference (a caller mutating an
array it was handed). -/
def pushAt (c : HistoryState) (r : Nat) (m : Message) : HistoryState :=
  { c with store := writeArr c.store r (readArr c.store r ++ [m]) }

/- ## Legacy context queue (`LimitQueue`, util.ts 67-89) -/

/-- Method `LimitQueue.enqueue` (util.ts 76-83): when the queue has reached the
capacity, `shift()` removes the head before the new item is pushed. -/
def enqueue (capacity : Nat) (q : List Message) (item : Message) : List Message :=
  if q.length = capacity then q.drop 1 ++ [item] else q ++ [item]

/-- The queue contents after enqueueing a sequence of messages into a fresh
`LimitQueue` of the given capacity (constructed empty, util.ts 71-74). -/
def limitQueueRun (capacity : Nat) (msgs : List Message) : List Message :=
  msgs.foldl (enqueue capacity) []

/-- The capacity the legacy `ChatGptClient` constructor passes:
`new LimitQueue(5)` (util.ts 102). -/
def chatGptContextCapacity : Nat := 5

/- ## Concrete fixtures used by witnesses and counterexamples -/

/-- A stream in which one tool call's fragments all target the same slot,
each fragment carrying optional pieces of the name and of the arguments and
omitting the call kind. -/
def slotDeltas (i : Nat) (fs : List (Option Str × Option Str)) : List StreamDelta :=
  fs.map (fun p => { content := none, tool_calls := [⟨i, none, p.1, p.2⟩] })

/-- A three-server configuration in which the middle server's handshake
fails. -/
def threeServerCfg : List (Str × HandshakeResult) :=
  [((("alpha").data), .ok []),
   ((("beta").data), .error ()),
   ((("gamma").data), .ok [("t").data])]

/-- A stream whose deltas populate slot 1 before slot 0. -/
def twoSlotDeltas : List StreamDelta :=
  [{ content := none, tool_calls := [⟨1, none, some (("b").data), none⟩] },
   { content := none, tool_calls := [⟨0, none, some (("a").data), none⟩] }]

/-- A registry with a single connected server named `fs`. -/
def fsRegistry : ClientState :=
  { serverConnections := [((("fs").data), ⟨("fs").data, []⟩)], allTools := [] }

/-- A stream result that reconstructed exactly one tool call, `fs_t`, with
empty argument text and no plain content. -/
def fsStreamResult : StreamResult :=
  { content := [], toolCalls := [⟨functionKind, ("fs_t").data, []⟩] }

/-- The one turn of the C1 scenario, computed: user query `q`, tool result
`Sunny`, follow-up `Nice`, against `fsRegistry` and `fsStreamResult` with the
identity JSON round trip. -/
def fsTurnFinalText : Str :=
  toolAnnouncement (("fs_t").data) emptyJsonObject ++ '\n' :: ("Nice").data

/-- The outcome the C1 scenario turn actually produces. -/
def fsTurnOutcome : TurnOutcome :=
  { history := [{ role := Role.user, content := ("q").data },
                { role := Role.assistant, content := fsTurnFinalText }]
    result := fsTurnFinalText
    dispatched := some ⟨functionKind, ("fs_t").data, []⟩
    followUpReq := some (followUpRequest [{ role := Role.user, content := ("q").data }]
      (("Sunny").data)) }

/- ## General lemmas -/

/-- Applying `appendOpt` to a present fragment is plain concatenation (appending the
empty string is a no-op). -/
theorem appendOpt_some (b s : Str) : appendOpt b (some s) = b ++ s := by
  unfold appendOpt
  by_cases h : s.isEmpty
  · simp [h, List.isEmpty_iff.mp h]
  · simp [h]

/-- Applying `appendOpt` to an absent fragment keeps the base. -/
theorem appendOpt_none (b : Str) : appendOpt b none = b := rfl

/-- The queue after `LimitQueue.enqueue`-folding a message list onto a queue
that respects the capacity is the suffix of capacity length of everything
seen, in order. -/
theorem enqueue_foldl (c : Nat) (hc : 0 < c) :
    ∀ (msgs q : List Message), q.length ≤ c →
      msgs.foldl (enqueue c) q = (q ++ msgs).drop (q.length + msgs.length - c)
  | [], q, hq => by
    simp [Nat.sub_eq_zero_of_le hq]
  | m :: rest, q, hq => by
    rw [List.foldl_cons]
    by_cases hfull : q.length = c
    · have henq : enqueue c q m = q.drop 1 ++ [m] := by simp [enqueue, hfull]
      have hq1 : (q.drop 1 ++ [m]).length ≤ c := by
        simp [List.length_drop]
        omega
      rw [henq, enqueue_foldl c hc rest _ hq1]
      have hidx : (q.drop 1 ++ [m]).length + rest.length - c = rest.length := by
        simp [List.length_drop]
        omega
      have hidx2 : q.length + (m :: rest).length - c = rest.length + 1 := by
        simp
        omega
      rw [hidx, hidx2]
      have hsplit : (q.drop 1 ++ [m]) ++ rest = (q ++ m :: rest).drop 1 := by
        rw [List.drop_append_of_le_length (by omega : 1 ≤ q.length)]
        simp
      rw [hsplit, List.drop_drop, Nat.add_comm]
    · have hlt : q.length < c := lt_of_le_of_ne hq hfull
      have henq : enqueue c q m = q ++ [m] := by simp [enqueue, hfull]
      have hq1 : (q ++ [m]).length ≤ c := by
        simp
        omega
      rw [henq, enqueue_foldl c hc rest _ hq1]
      rw [List.append_assoc, List.singleton_append]
      congr 1
      simp
      omega

/-- C10: in the legacy `ChatGptClient`, the context queue built by any
sequence of enqueues into the capacity-5 `LimitQueue` always holds exactly
the most recent at-most-5 messages in insertion order, so its length never
exceeds the capacity 5. -/
theorem limitQueue_keeps_most_recent_five (msgs : List Message) :
    limitQueueRun chatGptContextCapacity msgs
        = msgs.drop (msgs.length - chatGptContextCapacity)
      ∧ (limitQueueRun chatGptContextCapacity msgs).length ≤ chatGptContextCapacity := by
  have h := enqueue_foldl chatGptContextCapacity (by decide) msgs [] (by simp)
  unfold limitQueueRun
  rw [h]
  simp [List.length_drop]
  omega

/-- The teardown loop visits every registered connection, in registry order,
whatever the close outcomes are. -/
theorem cleanupLoop_attempts_all (closeOk : Str → Bool) :
    ∀ conns : List (Str × ServerConnection),
      (cleanupLoop closeOk conns).1 = conns.map Prod.fst
  | [] => rfl
  | (n, c) :: rest => by
    unfold cleanupLoop
    simp [cleanupLoop_attempts_all closeOk rest]

/-- C7: closing the registry over any set of connections, including ones
whose close operation fails, still attempts to close every connection (each
failure only logged, never propagated), and leaves the registry state —
connection map, tool catalog and conversation history — empty afterwards
unconditionally. -/
theorem cleanup_attempts_all_and_clears (closeOk : Str → Bool) (st : MCPClientState) :
    (cleanup closeOk st).1.1 = st.serverConnections.map Prod.fst
      ∧ (cleanup closeOk st).2
          = { serverConnections := [], allTools := [], conversationHistory := [] } := by
  exact ⟨cleanupLoop_attempts_all closeOk st.serverConnections, rfl⟩

/- ## Connection establishment (C5) -/

/-- JavaScript `Map.set` with a key not yet present appends the entry. -/
theorem mapSet_of_not_mem (m : List (Str × ServerConnection)) (k : Str)
    (v : ServerConnection) (h : k ∉ m.map Prod.fst) :
    mapSet m k v = m ++ [(k, v)] := by
  unfold mapSet
  rw [if_neg]
  simp only [List.any_eq_true, decide_eq_true_eq, not_exists, not_and]
  intro p hp hk
  exact h (hk ▸ List.mem_map_of_mem Prod.fst hp)

/-- The connection loop registers, in configuration order, exactly the
servers whose handshake succeeded (on top of whatever was registered
before), provided the configured names are distinct and fresh. -/
theorem connect_fold_names :
    ∀ (cfg : List (Str × HandshakeResult)) (st : ClientState),
      (cfg.map Prod.fst).Nodup →
      (∀ p ∈ cfg, p.1 ∉ st.serverConnections.map Prod.fst) →
      (cfg.foldl connectStep st).serverConnections.map Prod.fst
        = st.serverConnections.map Prod.fst
            ++ (cfg.filter (fun p => handshakeOk p.2)).map Prod.fst
  | [], st, _, _ => by simp
  | (n, r) :: rest, st, hnd, hmem => by
    rw [List.foldl_cons]
    have hnd2 : (rest.map Prod.fst).Nodup := (List.nodup_cons.mp hnd).2
    cases r with
    | error e =>
      have hstep : connectStep st (n, .error e) = st := rfl
      rw [hstep, connect_fold_names rest st hnd2
        (fun p hp => hmem p (List.mem_cons_of_mem _ hp))]
      simp [handshakeOk]
    | ok adv =>
      have hn : n ∉ st.serverConnections.map Prod.fst :=
        hmem (n, .ok adv) (List.mem_cons_self _ _)
      have hstep : (connectStep st (n, .ok adv)).serverConnections
          = st.serverConnections ++ [(n, ⟨n, adv.map (namespacedTool n)⟩)] := by
        simp [connectStep, connectToSingleServer, mapSet_of_not_mem _ _ _ hn]
      have hmem2 : ∀ p ∈ rest,
          p.1 ∉ (connectStep st (n, .ok adv)).serverConnections.map Prod.fst := by
        intro p hp
        rw [hstep]
        simp only [List.map_append, List.map_cons, List.map_nil, List.mem_append,
          List.mem_singleton]
        rintro (hin | hn2)
        · exact hmem p (List.mem_cons_of_mem _ hp) hin
        · have hpm : p.1 ∈ rest.map Prod.fst := List.mem_map_of_mem Prod.fst hp
          rw [hn2] at hpm
          exact (List.nodup_cons.mp hnd).1 hpm
      rw [connect_fold_names rest _ hnd2 hmem2, hstep]
      simp [handshakeOk]

/-- C5: `connectToServers` over a configuration (with distinct server names)
in which some subset fails to connect registers exactly the successfully
connected servers, in order, and returns without raising; it raises an error
if and only if zero servers connect successfully. -/
theorem connectToServers_failure_policy (cfg : List (Str × HandshakeResult))
    (hnd : (cfg.map Prod.fst).Nodup) :
    (connectToServers emptyClientState cfg = .error ()
        ↔ ∀ p ∈ cfg, handshakeOk p.2 = false)
      ∧ ∀ st2, connectToServers emptyClientState cfg = .ok st2 →
          st2.serverConnections.map Prod.fst
            = (cfg.filter (fun p => handshakeOk p.2)).map Prod.fst := by
  have hnames := connect_fold_names cfg emptyClientState hnd
    (by intro p _; simp [emptyClientState])
  rw [show emptyClientState.serverConnections.map Prod.fst = [] from rfl,
    List.nil_append] at hnames
  unfold connectToServers
  constructor
  · constructor
    · intro herr
      by_cases hemp : (cfg.foldl connectStep emptyClientState).serverConnections.isEmpty
      · have hnil : (cfg.foldl connectStep emptyClientState).serverConnections = [] :=
          List.isEmpty_iff.mp hemp
        rw [hnil] at hnames
        have hfilt : (cfg.filter (fun p => handshakeOk p.2)) = [] :=
          List.map_eq_nil_iff.mp hnames.symm
        intro p hp
        by_contra hok
        have : p ∈ cfg.filter (fun p => handshakeOk p.2) :=
          List.mem_filter.mpr ⟨hp, by simpa using hok⟩
        simp [hfilt] at this
      · simp [hemp] at herr
    · intro hall
      have hfilt : (cfg.filter (fun p => handshakeOk p.2)) = [] :=
        List.filter_eq_nil_iff.mpr (by intro p hp; simp [hall p hp])
      rw [hfilt] at hnames
      have hnil : (cfg.foldl connectStep emptyClientState).serverConnections = [] := by
        simpa using List.map_eq_nil_iff.mp hnames
      rw [if_pos (by simp [hnil])]
  · intro st2 hok
    by_cases hemp : (cfg.foldl connectStep emptyClientState).serverConnections.isEmpty
    · simp [hemp] at hok
    · rw [if_neg hemp] at hok
      cases hok
      exact hnames

/-- Witness for C5: on the three-server configuration with one handshake
failure, `connectToServers` does not raise and registers exactly the two
successful servers. -/
theorem connectToServers_failure_policy_witness :
    (threeServerCfg.map Prod.fst).Nodup
      ∧ ((connectToServers emptyClientState threeServerCfg = .error ()
            ↔ ∀ p ∈ threeServerCfg, handshakeOk p.2 = false)
          ∧ ∀ st2, connectToServers emptyClientState threeServerCfg = .ok st2 →
              st2.serverConnections.map Prod.fst
                = (threeServerCfg.filter (fun p => handshakeOk p.2)).map Prod.fst)
      ∧ connectToServers emptyClientState threeServerCfg
          = .ok (threeServerCfg.foldl connectStep emptyClientState)
      ∧ (threeServerCfg.foldl connectStep emptyClientState).serverConnections.length = 2 :=
  ⟨by decide, connectToServers_failure_policy threeServerCfg (by decide), rfl, by decide⟩

/- ## Tool-call routing (C3) -/

/-- A name without the separator does not split. -/
theorem splitFirst_of_not_mem :
    ∀ (name : Str), '_' ∉ name → splitFirstUnderscore name = none
  | [], _ => rfl
  | c :: rest, h => by
    unfold splitFirstUnderscore
    have hc : ¬ c = '_' := fun hc => h (hc ▸ List.mem_cons_self c rest)
    rw [if_neg hc, splitFirst_of_not_mem rest (fun hm => h (List.mem_cons_of_mem c hm))]

/-- Splitting happens at the first separator occurrence: a separator-free
prefix is the server name, everything after the first separator the bare
tool name. -/
theorem splitFirst_append :
    ∀ (p t : Str), '_' ∉ p → splitFirstUnderscore (p ++ '_' :: t) = some (p, t)
  | [], t, _ => by simp [splitFirstUnderscore]
  | c :: p, t, h => by
    have hc : ¬ c = '_' := fun hc => h (hc ▸ List.mem_cons_self c p)
    have ih := splitFirst_append p t (fun hm => h (List.mem_cons_of_mem c hm))
    simp only [List.cons_append, splitFirstUnderscore, if_neg hc, List.append_eq, ih]

/-- C3: `callTool` splits a qualified name at the first separator and routes
to the connection registered under the prefix with the bare suffix as tool
name; a separator-free name routes to the first connected server; and when
the resolved server name has no live connection the call fails with the
server-not-found error. -/
theorem callTool_routing :
    (∀ (st : ClientState) (p t : Str) (conn : ServerConnection),
        '_' ∉ p → mapGet st.serverConnections p = some conn →
        callToolRoute st (p ++ '_' :: t) = .ok (conn, t))
      ∧ (∀ (st : ClientState) (name n : Str) (c : ServerConnection)
          (rest : List (Str × ServerConnection)),
          '_' ∉ name → st.serverConnections = (n, c) :: rest →
          callToolRoute st name = .ok (c, name))
      ∧ (∀ (st : ClientState) (p t : Str),
          '_' ∉ p → mapGet st.serverConnections p = none →
          callToolRoute st (p ++ '_' :: t) = .error ()) := by
  refine ⟨?_, ?_, ?_⟩
  · intro st p t conn hp hget
    unfold callToolRoute resolveRoute
    rw [splitFirst_append p t hp]
    simp [hget]
  · intro st name n c rest hname hst
    unfold callToolRoute resolveRoute
    rw [splitFirst_of_not_mem name hname, hst]
    simp [mapGet, List.find?_cons]
  · intro st p t hp hget
    unfold callToolRoute resolveRoute
    rw [splitFirst_append p t hp]
    simp [hget]

/-- Witness for C3: `fs_readFile` on a registry with a server named `fs`
routes to that connection with bare tool name `readFile`. -/
theorem callTool_routing_witness :
    ('_' ∉ ("fs").data)
      ∧ mapGet fsRegistry.serverConnections (("fs").data) = some ⟨("fs").data, []⟩
      ∧ callToolRoute fsRegistry (("fs").data ++ '_' :: ("readFile").data)
          = .ok (⟨("fs").data, []⟩, ("readFile").data) :=
  ⟨by decide, by decide,
    (callTool_routing).1 fsRegistry (("fs").data) (("readFile").data) ⟨("fs").data, []⟩
      (by decide) (by decide)⟩

/- ## Conversation snapshot independence (C9) -/

/-- C9: `getConversationHistory` returns a copy equal to the current
history; a later push through the internal reference leaves the returned
snapshot unchanged, and pushing onto the returned snapshot leaves the
internal history unchanged. -/
theorem snapshot_independent (c c2 : HistoryState) (snap : Nat)
    (h : c.histRef < c.store.arrays.length)
    (hrun : getConversationHistory c = (c2, snap)) :
    readArr c2.store snap = readArr c.store c.histRef
      ∧ c2.histRef = c.histRef
      ∧ (∀ m, readArr (pushHistory c2 m).store snap = readArr c2.store snap)
      ∧ (∀ m, readArr (pushAt c2 snap m).store c2.histRef
            = readArr c2.store c2.histRef) := by
  have hrun2 : ({ c with
        store := ⟨c.store.arrays ++ [readArr c.store c.histRef]⟩ }, c.store.arrays.length)
      = (c2, snap) := by
    rw [← hrun]
    rfl
  rw [Prod.mk.injEq] at hrun2
  obtain ⟨hc2, hsnap⟩ := hrun2
  subst hc2
  subst hsnap
  have hne : c.histRef ≠ c.store.arrays.length := Nat.ne_of_lt h
  refine ⟨?_, rfl, ?_, ?_⟩
  · simp [readArr, List.getElem?_concat_length]
  · intro m
    simp only [pushHistory, readArr, writeArr]
    rw [List.getElem?_set_ne hne]
  · intro m
    simp only [pushAt, readArr, writeArr]
    rw [List.getElem?_set_ne (Ne.symm hne)]

/-- Witness for C9 at a one-array heap holding a single user message. -/
theorem snapshot_independent_witness :
    (0 < (ArrayStore.mk [[{ role := Role.user, content := ("x").data }]]).arrays.length)
      ∧ readArr (getConversationHistory ⟨⟨[[{ role := Role.user, content := ("x").data }]]⟩, 0⟩).1.store
            (getConversationHistory ⟨⟨[[{ role := Role.user, content := ("x").data }]]⟩, 0⟩).2
          = readArr (ArrayStore.mk [[{ role := Role.user, content := ("x").data }]]) 0 :=
  ⟨by decide,
    (snapshot_independent ⟨⟨[[{ role := Role.user, content := ("x").data }]]⟩, 0⟩
      (getConversationHistory ⟨⟨[[{ role := Role.user, content := ("x").data }]]⟩, 0⟩).1
      (getConversationHistory ⟨⟨[[{ role := Role.user, content := ("x").data }]]⟩, 0⟩).2
      (by decide) rfl).1⟩

/- ## Text accumulation (C2) -/

/-- Rewriting `appendOpt` through `Option.getD`. -/
theorem appendOpt_getD (b : Str) (o : Option Str) : appendOpt b o = b ++ o.getD [] := by
  cases o with
  | none => simp [appendOpt]
  | some s => rw [appendOpt_some]; rfl

/-- Text-only folding of the MCP accumulator is plain concatenation onto the
accumulated content. -/
theorem mcp_fold_content :
    ∀ (frags : List Str) (acc : StreamAcc),
      ((frags.map textDelta).foldl applyDelta acc).content = acc.content ++ frags.flatten
  | [], acc => by simp
  | f :: rest, acc => by
    rw [List.map_cons, List.foldl_cons, mcp_fold_content rest _]
    simp [applyDelta, textDelta, appendOpt_some]

/-- The MCP accumulator's final content is exactly the concatenation of the
text fragments, with no trimming. -/
theorem mcpAccumulate_eq_flatten (frags : List Str) :
    mcpAccumulate frags = frags.flatten := by
  have h := mcp_fold_content frags { content := [], pending := [] }
  simpa [mcpAccumulate, handleStreamResponse] using h

/-- Once the legacy `DataTransform` has non-empty content, every further
fragment is appended verbatim. -/
theorem dt_fold_nonempty :
    ∀ (msgs : List Str) (c : Str), c ≠ [] → msgs.foldl dtStep c = c ++ msgs.flatten
  | [], c, _ => by simp
  | f :: rest, c, hc => by
    rw [List.foldl_cons]
    by_cases hf : f.isEmpty
    · have h1 : dtStep c f = c := by simp [dtStep, hf]
      rw [h1, dt_fold_nonempty rest c hc]
      simp [List.isEmpty_iff.mp hf]
    · have hcne : ¬ c.isEmpty := by simpa [List.isEmpty_iff] using hc
      have h1 : dtStep c f = c ++ f := by simp [dtStep, hf, hcne]
      have hcf : c ++ f ≠ [] := by simp [hc]
      rw [h1, dt_fold_nonempty rest _ hcf]
      simp

/-- The legacy `DataTransform` content over any fragment sequence is the
whole concatenation with its entire leading-whitespace run stripped. -/
theorem dt_fold_empty :
    ∀ msgs : List Str, msgs.foldl dtStep [] = trimStart msgs.flatten
  | [] => rfl
  | f :: rest => by
    rw [List.foldl_cons]
    by_cases hf : f.isEmpty
    · have h1 : dtStep [] f = [] := by simp [dtStep, hf]
      rw [h1, dt_fold_empty rest]
      simp [List.isEmpty_iff.mp hf]
    · have h1 : dtStep [] f = trimStart f := by simp [dtStep, hf]
      rw [h1]
      by_cases htf : trimStart f = []
      · rw [htf, dt_fold_empty rest]
        unfold trimStart
        rw [List.flatten_cons, List.dropWhile_append]
        have : (f.dropWhile isWS).isEmpty = true := by
          simpa [List.isEmpty_iff, trimStart] using htf
        rw [if_pos this]
      · rw [dt_fold_nonempty rest _ htf]
        unfold trimStart
        rw [List.flatten_cons, List.dropWhile_append]
        have : ¬ (f.dropWhile isWS).isEmpty = true := by
          simpa [List.isEmpty_iff, trimStart] using htf
        rw [if_neg this]

/-- C2 counterexample: on the single fragment `" hi"` the MCP stream
accumulator keeps the leading whitespace, whereas the claimed stripping rule
would remove it. -/
theorem streamContent_strip_counterexample :
    mcpAccumulate [(" hi").data] = (" hi").data
      ∧ specClaimedContent [(" hi").data] = ("hi").data
      ∧ mcpAccumulate [(" hi").data] ≠ specClaimedContent [(" hi").data] := by
  decide

/-- C2 amended: the accumulator of `handleStreamResponse` produces the
verbatim concatenation of the text fragments, with no whitespace stripped;
the legacy `DataTransform` accumulator instead strips the entire leading
whitespace run of the concatenation (including whitespace-only fragments
beyond the first). Both depend only on the underlying concatenated text, so
both are invariant under re-chunking. -/
theorem streamContent_concatenation (frags : List Str) :
    mcpAccumulate frags = frags.flatten
      ∧ dataTransformContent frags = trimStart frags.flatten
      ∧ ∀ frags2 : List Str, frags.flatten = frags2.flatten →
          mcpAccumulate frags = mcpAccumulate frags2
            ∧ dataTransformContent frags = dataTransformContent frags2 := by
  refine ⟨mcpAccumulate_eq_flatten frags, dt_fold_empty frags, ?_⟩
  intro frags2 heq
  rw [mcpAccumulate_eq_flatten frags, mcpAccumulate_eq_flatten frags2, heq]
  unfold dataTransformContent
  rw [dt_fold_empty frags, dt_fold_empty frags2, heq]
  exact ⟨rfl, rfl⟩

/-- Witness for C2 (amended): two different chunkings of `" ab"` accumulate
to the same contents in both accumulators. -/
theorem streamContent_concatenation_witness :
    ([(" a").data, ("b").data].flatten = [(" ").data, ("ab").data].flatten)
      ∧ mcpAccumulate [(" a").data, ("b").data] = mcpAccumulate [(" ").data, ("ab").data]
      ∧ dataTransformContent [(" a").data, ("b").data]
          = dataTransformContent [(" ").data, ("ab").data] :=
  ⟨by decide,
    ((streamContent_concatenation [(" a").data, ("b").data]).2.2
      [(" ").data, ("ab").data] (by decide)).1,
    ((streamContent_concatenation [(" a").data, ("b").data]).2.2
      [(" ").data, ("ab").data] (by decide)).2⟩

/- ## Tool-call reassembly (C6) -/

/-- Sparse assignment into the empty array pads with holes up to the slot. -/
theorem setSlot_nil (i : Nat) (v : BasicToolCall) :
    setSlot [] i v = List.replicate i none ++ [some v] := by
  simp [setSlot]

/-- Reading the populated slot back. -/
theorem getSlot_rep (i : Nat) (v : BasicToolCall) :
    getSlot (List.replicate i none ++ [some v]) i = some v := by
  unfold getSlot
  rw [List.getElem?_append_right (by simp : (List.replicate i (none : Option BasicToolCall)).length ≤ i)]
  simp

/-- Re-assigning the populated slot overwrites it in place. -/
theorem setSlot_rep (i : Nat) (v w : BasicToolCall) :
    setSlot (List.replicate i none ++ [some v]) i w
      = List.replicate i none ++ [some w] := by
  unfold setSlot
  rw [if_pos (by simp), List.set_append]
  simp

/-- A tool-call delta for a slot that is already populated appends its name
and arguments pieces to that slot and touches nothing else. -/
theorem applyTCD_existing (i : Nat) (tc : BasicToolCall) (ty p1 p2 : Option Str) :
    applyToolCallDelta (List.replicate i none ++ [some tc]) ⟨i, ty, p1, p2⟩
      = List.replicate i none
          ++ [some ⟨tc.type, appendOpt tc.name p1, appendOpt tc.args p2⟩] := by
  unfold applyToolCallDelta
  simp only [getSlot_rep]
  exact setSlot_rep i tc _

/-- A tool-call delta for a fresh slot of an empty array initialises it: the
call kind defaults to `"function"` when omitted, and the delta's own name and
arguments pieces are the initial accumulated strings. -/
theorem applyTCD_fresh (i : Nat) (p1 p2 : Option Str) :
    applyToolCallDelta [] ⟨i, none, p1, p2⟩
      = List.replicate i none ++ [some ⟨functionKind, p1.getD [], p2.getD []⟩] := by
  unfold applyToolCallDelta
  have hget : getSlot [] i = none := by simp [getSlot]
  simp only [hget, jsOrElse]
  rw [setSlot_nil]
  congr 2
  simp [appendOpt_getD]

/-- Folding single-slot deltas over a populated slot appends, in arrival
order, the concatenation of all name pieces and of all argument pieces. -/
theorem slotDeltas_fold :
    ∀ (fs : List (Option Str × Option Str)) (i : Nat) (cnt : Str) (tc : BasicToolCall),
      (slotDeltas i fs).foldl applyDelta ⟨cnt, List.replicate i none ++ [some tc]⟩
        = ⟨cnt, List.replicate i none
            ++ [some ⟨tc.type,
                  tc.name ++ (fs.map (fun p => p.1.getD [])).flatten,
                  tc.args ++ (fs.map (fun p => p.2.getD [])).flatten⟩]⟩
  | [], i, cnt, tc => by simp [slotDeltas]
  | p :: rest, i, cnt, tc => by
    rw [show slotDeltas i (p :: rest)
        = { content := none, tool_calls := [⟨i, none, p.1, p.2⟩] } :: slotDeltas i rest
      from rfl]
    rw [List.foldl_cons]
    have happ : applyDelta ⟨cnt, List.replicate i none ++ [some tc]⟩
        { content := none, tool_calls := [⟨i, none, p.1, p.2⟩] }
        = ⟨cnt, List.replicate i none
            ++ [some ⟨tc.type, appendOpt tc.name p.1, appendOpt tc.args p.2⟩]⟩ := by
      simp only [applyDelta, List.foldl_cons, List.foldl_nil]
      rw [applyTCD_existing]
      rfl
    rw [happ, slotDeltas_fold rest i cnt _]
    simp [appendOpt_getD, List.append_assoc]

/-- Compaction of a single populated slot. -/
theorem filterMap_single_slot (i : Nat) (v : BasicToolCall) :
    (List.replicate i (none : Option BasicToolCall) ++ [some v]).filterMap id = [v] := by
  rw [List.filterMap_append]
  simp

/-- C6: tool-call fragments whose name and arguments strings are split
arbitrarily across sub-fragments of one slot reassemble to the same stream
result as a single un-split fragment carrying the full strings, and the
reconstructed call's kind defaults to `"function"` when the fragments omit
it, its name and argument text being the order-preserving concatenations. -/
theorem toolCall_reassembly (i : Nat) (fs : List (Option Str × Option Str))
    (h : fs ≠ []) :
    handleStreamResponse (slotDeltas i fs)
        = handleStreamResponse
            (slotDeltas i [(some ((fs.map (fun p => p.1.getD [])).flatten),
                            some ((fs.map (fun p => p.2.getD [])).flatten))])
      ∧ (handleStreamResponse (slotDeltas i fs)).toolCalls
          = [⟨functionKind, (fs.map (fun p => p.1.getD [])).flatten,
               (fs.map (fun p => p.2.getD [])).flatten⟩] := by
  obtain ⟨p, rest, rfl⟩ : ∃ p rest, fs = p :: rest := by
    cases fs with
    | nil => exact absurd rfl h
    | cons p rest => exact ⟨p, rest, rfl⟩
  have hfold1 : (slotDeltas i (p :: rest)).foldl applyDelta { content := [], pending := [] }
      = ⟨[], List.replicate i none
          ++ [some ⟨functionKind,
                p.1.getD [] ++ (rest.map (fun q => q.1.getD [])).flatten,
                p.2.getD [] ++ (rest.map (fun q => q.2.getD [])).flatten⟩]⟩ := by
    rw [show slotDeltas i (p :: rest)
        = { content := none, tool_calls := [⟨i, none, p.1, p.2⟩] } :: slotDeltas i rest
      from rfl]
    rw [List.foldl_cons]
    have happ : applyDelta { content := [], pending := [] }
        { content := none, tool_calls := [⟨i, none, p.1, p.2⟩] }
        = ⟨[], List.replicate i none ++ [some ⟨functionKind, p.1.getD [], p.2.getD []⟩]⟩ := by
      simp only [applyDelta, List.foldl_cons, List.foldl_nil]
      rw [applyTCD_fresh]
      rfl
    rw [happ, slotDeltas_fold rest i [] _]
  have hfold2 : ∀ n a : Str,
      (slotDeltas i [(some n, some a)]).foldl applyDelta { content := [], pending := [] }
        = ⟨[], List.replicate i none ++ [some ⟨functionKind, n, a⟩]⟩ := by
    intro n a
    rw [show slotDeltas i [(some n, some a)]
        = [{ content := none, tool_calls := [⟨i, none, some n, some a⟩] }] from rfl]
    rw [List.foldl_cons, List.foldl_nil]
    simp only [applyDelta, List.foldl_cons, List.foldl_nil]
    rw [applyTCD_fresh]
    rfl
  constructor
  · unfold handleStreamResponse
    rw [hfold1, hfold2]
    simp
  · unfold handleStreamResponse
    rw [hfold1]
    simp only [filterMap_single_slot]
    simp

/-- Witness for C6: the `getForecast` name split across two fragments, with
the argument text arriving with the second fragment only, reassembles to the
same single-fragment result. -/
theorem toolCall_reassembly_witness :
    ([((some (("get").data) : Option Str), (none : Option Str)),
      (some (("Forecast").data), some (("x").data))] ≠ [])
      ∧ (handleStreamResponse (slotDeltas 0
            [(some (("get").data), none), (some (("Forecast").data), some (("x").data))])).toolCalls
          = [⟨functionKind,
               ([((some (("get").data) : Option Str), (none : Option Str)),
                 (some (("Forecast").data), some (("x").data))].map
                   (fun p => p.1.getD [])).flatten,
               ([((some (("get").data) : Option Str), (none : Option Str)),
                 (some (("Forecast").data), some (("x").data))].map
                   (fun p => p.2.getD [])).flatten⟩] :=
  ⟨by decide,
    (toolCall_reassembly 0
      [(some (("get").data), none), (some (("Forecast").data), some (("x").data))]
      (by decide)).2⟩

/- ## Single dispatch per turn (C4) -/

/-- The head of the compacted array is the element at the lowest populated
index. -/
theorem head_filterMap_min :
    ∀ (arr : List (Option BasicToolCall)) (j : Nat) (tc : BasicToolCall),
      arr[j]? = some (some tc) → (∀ i, i < j → arr[i]? = some none) →
      (arr.filterMap id).head? = some tc
  | [], j, tc, hj, _ => by simp at hj
  | x :: rest, 0, tc, hj, _ => by
    simp only [List.getElem?_cons_zero, Option.some.injEq] at hj
    subst hj
    simp
  | x :: rest, j + 1, tc, hj, hmin => by
    have hx : x = none := by
      have h0 := hmin 0 (Nat.succ_pos j)
      simpa using h0
    subst hx
    simp only [List.filterMap_cons, id]
    exact head_filterMap_min rest j tc (by simpa using hj)
      (fun i hi => by simpa using hmin (i + 1) (Nat.succ_lt_succ hi))

/-- C4: when the accumulated stream reconstructs more than one tool call,
the turn dispatches exactly the reconstructed call at the lowest populated
slot index: it is the head of the compacted tool-call list, and any
successful run of `processQuery` over that stream result records it — and
only it — as dispatched, discarding the rest. -/
theorem first_toolCall_dispatched (ds : List StreamDelta) (j : Nat)
    (tc : BasicToolCall)
    (hj : getSlot (streamPending ds) j = some tc)
    (hmin : ∀ i, i < j → getSlot (streamPending ds) i = none)
    (hmany : 1 < (handleStreamResponse ds).toolCalls.length) :
    (handleStreamResponse ds).toolCalls.head? = some tc
      ∧ ∀ (st : ClientState) (reparse : Str → Option Str) (tr fu : Str)
          (hist : List Message) (q : Str) (o : TurnOutcome),
          processQuery st reparse tr fu hist q (handleStreamResponse ds) = .ok o →
          o.dispatched = some tc := by
  have harr : (handleStreamResponse ds).toolCalls = (streamPending ds).filterMap id := rfl
  have hj2 : (streamPending ds)[j]? = some (some tc) := by
    unfold getSlot at hj
    cases hx : (streamPending ds)[j]? with
    | none => rw [hx] at hj; simp at hj
    | some x =>
      rw [hx] at hj
      cases x with
      | none => simp at hj
      | some y => simp at hj; rw [hj]
  have hlen : j < (streamPending ds).length := by
    by_contra hge
    rw [List.getElem?_eq_none (by omega)] at hj2
    exact Option.noConfusion hj2
  have hmin2 : ∀ i, i < j → (streamPending ds)[i]? = some none := by
    intro i hi
    have hg := hmin i hi
    unfold getSlot at hg
    cases hx : (streamPending ds)[i]? with
    | none =>
      exact absurd (List.getElem?_eq_none_iff.mp hx) (by omega)
    | some x =>
      rw [hx] at hg
      cases x with
      | none => rfl
      | some y => simp at hg
  have hhead : (handleStreamResponse ds).toolCalls.head? = some tc := by
    rw [harr]
    exact head_filterMap_min (streamPending ds) j tc hj2 hmin2
  refine ⟨hhead, ?_⟩
  intro st reparse tr fu hist q o hpq
  unfold processQuery at hpq
  rw [hhead] at hpq
  repeat' split at hpq
  all_goals simp_all
  all_goals (subst hpq; rfl)

/-- Witness for C4: a stream populating slot 1 before slot 0 still
dispatches the slot-0 call first. -/
theorem first_toolCall_dispatched_witness :
    getSlot (streamPending twoSlotDeltas) 0 = some ⟨functionKind, ("a").data, []⟩
      ∧ 1 < (handleStreamResponse twoSlotDeltas).toolCalls.length
      ∧ (handleStreamResponse twoSlotDeltas).toolCalls.head?
          = some ⟨functionKind, ("a").data, []⟩ :=
  ⟨by decide, by decide,
    (first_toolCall_dispatched twoSlotDeltas 0 ⟨functionKind, ("a").data, []⟩
      (by decide) (fun i hi => absurd hi (Nat.not_lt_zero i)) (by decide)).1⟩

/- ## Follow-up generation without tools (C8) -/

/-- C8: whenever a tool was invoked in a turn, the follow-up generation
request is built over the updated message list — the history including the
user query and any pre-tool assistant content, plus the tool's textual
result as a user-role message — and carries no tool catalog and no
tool-choice mode, so no further tool call can be requested within the same
turn. -/
theorem followUp_request_no_tools (st : ClientState) (reparse : Str → Option Str)
    (tr fu : Str) (hist : List Message) (q : Str) (sr : StreamResult)
    (o : TurnOutcome)
    (hok : processQuery st reparse tr fu hist q sr = .ok o)
    (hDispatch : o.dispatched.isSome) :
    ∃ req, o.followUpReq = some req
      ∧ req.tools = none
      ∧ req.tool_choice = none
      ∧ req.messages
          = (hist ++ [{ role := Role.user, content := q }]
              ++ (if sr.content.isEmpty then []
                  else [{ role := Role.assistant, content := sr.content }]))
            ++ [{ role := Role.user, content := tr }] := by
  unfold processQuery at hok
  repeat' split at hok
  all_goals (try (exact Except.noConfusion hok))
  all_goals (rw [Except.ok.injEq] at hok; subst hok)
  all_goals (try (simp at hDispatch))
  all_goals refine ⟨_, rfl, rfl, rfl, ?_⟩
  all_goals simp_all [followUpRequest]

/-- Witness for C8 on the concrete one-tool-call turn. -/
theorem followUp_request_no_tools_witness :
    (processQuery fsRegistry some (("Sunny").data) (("Nice").data) [] (("q").data)
        fsStreamResult = .ok fsTurnOutcome)
      ∧ fsTurnOutcome.dispatched.isSome
      ∧ ∃ req, fsTurnOutcome.followUpReq = some req
          ∧ req.tools = none
          ∧ req.tool_choice = none
          ∧ req.messages
              = (([] : List Message) ++ [{ role := Role.user, content := ("q").data }]
                  ++ (if fsStreamResult.content.isEmpty then []
                      else [{ role := Role.assistant, content := fsStreamResult.content }]))
                ++ [{ role := Role.user, content := ("Sunny").data }] :=
  ⟨rfl, by decide,
    followUp_request_no_tools fsRegistry some (("Sunny").data) (("Nice").data) []
      (("q").data) fsStreamResult fsTurnOutcome rfl (by decide)⟩

/- ## Post-turn conversation history (C1) -/

/-- C1 counterexample: in the concrete one-tool-call turn (query `q`, tool
result `Sunny`, follow-up `Nice`), the history afterwards has exactly two new
entries — the user query and one assistant message — with no tool-result
message carrying `Sunny` anywhere, and the bracketed announcement IS
persisted inside that final assistant message. -/
theorem turn_history_counterexample :
    processQuery fsRegistry some (("Sunny").data) (("Nice").data) [] (("q").data)
        fsStreamResult = .ok fsTurnOutcome
      ∧ fsTurnOutcome.history.length = 2
      ∧ (∀ m ∈ fsTurnOutcome.history, m.role ≠ Role.tool ∧ m.content ≠ ("Sunny").data)
      ∧ fsTurnOutcome.history.getLast?
          = some { role := Role.assistant,
                   content := toolAnnouncement (("fs_t").data) emptyJsonObject
                     ++ '\n' :: ("Nice").data } :=
  ⟨rfl, by decide, by decide, by decide⟩

/-- C1 amended: after a turn that reconstructs and successfully dispatches a
tool call, the new history entries are the user query, optionally an
assistant message with the pre-tool streamed content, and one final
assistant message whose content newline-joins the optional pre-tool content,
the bracketed tool-call announcement and the follow-up content; the tool's
textual result is carried only by the temporary follow-up request (as a
user-role message) and is never persisted to the history. -/
theorem turn_history_amended (st : ClientState) (reparse : Str → Option Str)
    (tr fu : Str) (hist : List Message) (q : Str) (sr : StreamResult)
    (o : TurnOutcome) (tc : BasicToolCall) (s : Str)
    (hok : processQuery st reparse tr fu hist q sr = .ok o)
    (hd : o.dispatched = some tc)
    (hs : reparse (orDefault tc.args emptyJsonObject) = some s) :
    o.history
        = (hist ++ [{ role := Role.user, content := q }]
            ++ (if sr.content.isEmpty then []
                else [{ role := Role.assistant, content := sr.content }]))
          ++ [{ role := Role.assistant,
                content := joinNL ((if sr.content.isEmpty then [] else [sr.content])
                  ++ [toolAnnouncement tc.name s, fu]) }]
      ∧ o.followUpReq
          = some (followUpRequest
              (hist ++ [{ role := Role.user, content := q }]
                ++ (if sr.content.isEmpty then []
                    else [{ role := Role.assistant, content := sr.content }])) tr) := by
  unfold processQuery at hok
  repeat' split at hok
  all_goals (try (exact Except.noConfusion hok))
  all_goals (rw [Except.ok.injEq] at hok; subst hok)
  all_goals (try (exact Option.noConfusion hd))
  all_goals (have htc := Option.some.inj hd)
  all_goals (subst htc)
  all_goals simp_all [followUpRequest, List.append_assoc]

/-- Witness for C1 (amended) on the concrete one-tool-call turn. -/
theorem turn_history_amended_witness :
    (processQuery fsRegistry some (("Sunny").data) (("Nice").data) [] (("q").data)
        fsStreamResult = .ok fsTurnOutcome)
      ∧ fsTurnOutcome.dispatched = some ⟨functionKind, ("fs_t").data, []⟩
      ∧ fsTurnOutcome.history
          = (([] : List Message) ++ [{ role := Role.user, content := ("q").data }]
              ++ (if fsStreamResult.content.isEmpty then []
                  else [{ role := Role.assistant, content := fsStreamResult.content }]))
            ++ [{ role := Role.assistant,
                  content := joinNL ((if fsStreamResult.content.isEmpty then []
                      else [fsStreamResult.content])
                    ++ [toolAnnouncement (("fs_t").data) emptyJsonObject, ("Nice").data]) }] :=
  ⟨rfl, rfl,
    (turn_history_amended fsRegistry some (("Sunny").data) (("Nice").data) []
      (("q").data) fsStreamResult fsTurnOutcome ⟨functionKind, ("fs_t").data, []⟩
      emptyJsonObject rfl rfl rfl).1⟩

end Chatmate
